import Mathlib

/-!
# Verification of the fesca 3-party Boolean MPC core

Shallow embedding of the fesca repository's secret-sharing, correlated
randomness, gate protocol, circuit evaluator, SQL circuit compiler and
typed encoder, with theorems settling the specification claims.

Source files embedded:
* `fesca/computing_node/src/boolean_circuits.rs`
* `fesca/computing_node/src/correlated_randomness.rs`
* `fesca/data_analyst/src/physical_plan.rs` and `circuit_builder.rs`
* `fesca/data_owner/src/encode.rs`

Randomness drawn from `rand::thread_rng` in the source is exposed as
explicit function arguments, so every code path is a pure function of
its inputs and the fresh random bits.
-/

namespace Fesca

/-- `SecretShareSingleBit` from `computing_node/src/types.rs`:
one party's replicated share of a single bit, a pair `(x, a)` of the
random mask and the masked value. -/
structure SecretShareSingleBit where
  x : Bool
  a : Bool
deriving DecidableEq, Repr

/-- `CompleteShares` from `types.rs`: the three parties' share pairs. -/
structure CompleteShares where
  p1_share : SecretShareSingleBit
  p2_share : SecretShareSingleBit
  p3_share : SecretShareSingleBit
deriving DecidableEq, Repr

/-- `CorrelatedRandomnessBoolean` from `types.rs`: one Boolean triple
`(α, β, γ)`, with `α` held by P1, `β` by P2, `γ` by P3. -/
structure CorrelatedRandomnessBoolean where
  alpha : Bool
  beta : Bool
  gamma : Bool
deriving DecidableEq, Repr

/-- `generate_shares` from `boolean_circuits.rs` (lines 16-41).
The two fresh random bits drawn from `thread_rng` are the explicit
arguments `x1 x2`; the source sets `x3 = x1 ^ x2` so that
`x1 ⊕ x2 ⊕ x3 = 0`, and hands `Pi` the pair `(x_i, x_{i-1} ⊕ secret)`. -/
def generate_shares (secret x1 x2 : Bool) : CompleteShares :=
  let x3 := Bool.xor x1 x2
  { p1_share := { x := x1, a := Bool.xor x3 secret }
    p2_share := { x := x2, a := Bool.xor x1 secret }
    p3_share := { x := x3, a := Bool.xor x2 secret } }

/-- `reconstruct_shares` from `boolean_circuits.rs` (lines 45-49):
`(x1 ⊕ a1) ⊕ (x2 ⊕ a2)` on the two given share pairs. -/
def reconstruct_shares (share1 share2 : SecretShareSingleBit) : Bool :=
  Bool.xor (Bool.xor share1.x share1.a) (Bool.xor share2.x share2.a)

/-- `verify_shares` from `boolean_circuits.rs` (lines 52-55):
checks that the three `x` components XOR to zero. -/
def verify_shares (shares : CompleteShares) : Bool :=
  let x_sum := Bool.xor (Bool.xor shares.p1_share.x shares.p2_share.x) shares.p3_share.x
  x_sum == false

/-- `xor_gate_single_bit` from `boolean_circuits.rs` (lines 64-77):
componentwise XOR of the two share pairs. -/
def xor_gate_single_bit (share1 share2 : SecretShareSingleBit) : SecretShareSingleBit :=
  { x := Bool.xor share1.x share2.x
    a := Bool.xor share1.a share2.a }

/-- `and_gate_single_bit` from `boolean_circuits.rs` (lines 84-132).
The function computes the three `r` values `xy ⊕ ab ⊕ α/β/γ` from the
single caller's own share pair (`share1` of `x`, `share2` of `y`) and
all three triple components, and returns `(r1 ⊕ r3, r1)` — the pair
labelled "P1's share" in the source. -/
def and_gate_single_bit (share1 share2 : SecretShareSingleBit)
    (correlated_randomness : CorrelatedRandomnessBoolean) : SecretShareSingleBit :=
  let r1 := Bool.xor (Bool.xor (share1.x && share2.x) (share1.a && share2.a))
      correlated_randomness.alpha
  let r2 := Bool.xor (Bool.xor (share1.x && share2.x) (share1.a && share2.a))
      correlated_randomness.beta
  let r3 := Bool.xor (Bool.xor (share1.x && share2.x) (share1.a && share2.a))
      correlated_randomness.gamma
  let z1 := Bool.xor r1 r3
  let _z2 := Bool.xor r2 r1
  let _z3 := Bool.xor r3 r2
  let c1 := r1
  { x := z1, a := c1 }

/-- `not_gate_single_bit` from `boolean_circuits.rs` (lines 136-149):
keeps the `x` component and flips only the `a` component. -/
def not_gate_single_bit (share : SecretShareSingleBit) : SecretShareSingleBit :=
  { x := share.x, a := !share.a }

/-- `or_gate_single_bit` from `boolean_circuits.rs` (lines 153-164):
De Morgan composition of the NOT and AND gates. -/
def or_gate_single_bit (share1 share2 : SecretShareSingleBit)
    (correlated_randomness : CorrelatedRandomnessBoolean) : SecretShareSingleBit :=
  let not_share1 := not_gate_single_bit share1
  let not_share2 := not_gate_single_bit share2
  let and_result := and_gate_single_bit not_share1 not_share2 correlated_randomness
  not_gate_single_bit and_result

/-- The sharing invariant established by `generate_shares` (the S1+S2
cyclic layout as realized by the source, per the comments on lines
11-15 of `boolean_circuits.rs`): the three `x` masks XOR to zero and
each party's `a` component is the previous party's mask XORed with the
secret `v`. -/
def IsSharingOf (v : Bool) (cs : CompleteShares) : Prop :=
  Bool.xor (Bool.xor cs.p1_share.x cs.p2_share.x) cs.p3_share.x = false ∧
  cs.p1_share.a = Bool.xor cs.p3_share.x v ∧
  cs.p2_share.a = Bool.xor cs.p1_share.x v ∧
  cs.p3_share.a = Bool.xor cs.p2_share.x v

instance (v : Bool) (cs : CompleteShares) : Decidable (IsSharingOf v cs) := by
  unfold IsSharingOf
  infer_instance

/-- `generate_information_theoretic_correlated_randomness` from
`correlated_randomness.rs` (lines 27-50).  The three fresh random bits
`p1 p2 p3` drawn from `thread_rng` are explicit arguments. -/
def generate_information_theoretic_correlated_randomness (p1 p2 p3 : Bool) :
    CorrelatedRandomnessBoolean :=
  { alpha := Bool.xor p3 p1
    beta := Bool.xor p1 p2
    gamma := Bool.xor p2 p3 }

/-- `ComputationalCorrelatedRandomness` from `types.rs`: the three
256-bit PRF keys, kept abstract over the key type `K` (the source uses
`Vec<u8>`). -/
structure ComputationalCorrelatedRandomness (K : Type) where
  k1 : K
  k2 : K
  k3 : K

/-- `get_next_correlated_bit` from `correlated_randomness.rs`
(lines 89-108), parameterised over the PRF `F` (the source's `prf` is
the first bit of a SHA-256 over `(key, id)`; every claim settled here
holds for an arbitrary `F`, the concrete hash included). -/
def get_next_correlated_bit {K : Type} (F : K → String → Bool)
    (keys : ComputationalCorrelatedRandomness K) (id : String) :
    CorrelatedRandomnessBoolean :=
  { alpha := Bool.xor (F keys.k1 id) (F keys.k2 id)
    beta := Bool.xor (F keys.k2 id) (F keys.k3 id)
    gamma := Bool.xor (F keys.k3 id) (F keys.k1 id) }

/-- `GateType` from `computing_node/src/types.rs`. -/
inductive GateType where
  | AND
  | OR
  | XOR
  | NOT
deriving DecidableEq, Repr

/-- `CircuitNode` from `types.rs`: one gate of a Boolean circuit. -/
structure CircuitNode where
  gate_type : GateType
  input1 : Option Nat
  input2 : Option Nat
  output : Nat
  gate_id : String
deriving DecidableEq, Repr

/-- `BooleanCircuit` from `types.rs`. -/
structure BooleanCircuit where
  nodes : List CircuitNode
  input_count : Nat
  output_count : Nat
  topological_order : List Nat
deriving DecidableEq, Repr

/-- `evaluate_gate` from `boolean_circuits.rs` (lines 171-197).
The source's `unwrap()` on a missing input index and the slice
indexing both panic; those paths are `none` here. -/
def evaluate_gate (gate : CircuitNode) (inputs : List SecretShareSingleBit)
    (correlated_randomness : CorrelatedRandomnessBoolean) :
    Option SecretShareSingleBit :=
  match gate.gate_type with
  | GateType.XOR => do
      let i1 ← gate.input1
      let i2 ← gate.input2
      let input1 ← inputs[i1]?
      let input2 ← inputs[i2]?
      pure (xor_gate_single_bit input1 input2)
  | GateType.AND => do
      let i1 ← gate.input1
      let i2 ← gate.input2
      let input1 ← inputs[i1]?
      let input2 ← inputs[i2]?
      pure (and_gate_single_bit input1 input2 correlated_randomness)
  | GateType.OR => do
      let i1 ← gate.input1
      let i2 ← gate.input2
      let input1 ← inputs[i1]?
      let input2 ← inputs[i2]?
      pure (or_gate_single_bit input1 input2 correlated_randomness)
  | GateType.NOT => do
      let i1 ← gate.input1
      let input1 ← inputs[i1]?
      pure (not_gate_single_bit input1)

/-- The triple-selection expression of `evaluate_circuit`
(`boolean_circuits.rs` line 218):
`&correlated_randomness[i % correlated_randomness.len()]`.
Remainder by zero panics in Rust, hence `none` on an empty stream. -/
def crFor (correlated_randomness : List CorrelatedRandomnessBoolean) (i : Nat) :
    Option CorrelatedRandomnessBoolean :=
  if correlated_randomness.length = 0 then none
  else correlated_randomness[i % correlated_randomness.length]?

/-- The wire-arena growth of `evaluate_circuit` (lines 223-225):
`while all_values.len() <= gate.output` push a default `(false, false)`
share. -/
def pad_values (all_values : List SecretShareSingleBit) (output : Nat) :
    List SecretShareSingleBit :=
  all_values ++ List.replicate (output + 1 - all_values.length) { x := false, a := false }

/-- The gate loop of `evaluate_circuit` (lines 211-228): starting from
the input shares, evaluate each gate in order `i = 0, 1, …`, growing the
arena to cover `gate.output` and writing the result there. -/
def evaluate_circuit_wires (circuit : BooleanCircuit)
    (input_shares : List SecretShareSingleBit)
    (correlated_randomness : List CorrelatedRandomnessBoolean) :
    Option (List SecretShareSingleBit) :=
  circuit.nodes.enum.foldlM
    (fun all_values igate => do
      let cr ← crFor correlated_randomness igate.1
      let result ← evaluate_gate igate.2 all_values cr
      pure ((pad_values all_values igate.2.output).set igate.2.output result))
    input_shares

/-- `evaluate_circuit` from `boolean_circuits.rs` (lines 201-238):
run the gate loop, then return the slice
`all_values[input_shares.len()..]`. -/
def evaluate_circuit (circuit : BooleanCircuit)
    (input_shares : List SecretShareSingleBit)
    (correlated_randomness : List CorrelatedRandomnessBoolean) :
    Option (List SecretShareSingleBit) :=
  (evaluate_circuit_wires circuit input_shares correlated_randomness).map
    (List.drop input_shares.length)

/-- `create_example_circuit` from `boolean_circuits.rs` (lines 245-269):
the circuit `(A XOR B) AND C` with three inputs, one declared output,
an intermediate wire 3 and a final wire 4. -/
def create_example_circuit : BooleanCircuit :=
  { input_count := 3
    output_count := 1
    nodes :=
      [ { gate_type := GateType.XOR, input1 := some 0, input2 := some 1,
          output := 3, gate_id := "xor_1" }
      , { gate_type := GateType.AND, input1 := some 3, input2 := some 2,
          output := 4, gate_id := "and_1" } ]
    topological_order := [0, 1] }

/-- Modelled from the spec (§3 Circuit, §4.5): the triple-consumption
discipline the claims describe — every AND gate consumes the triple at
the index equal to that gate's position among the AND gates of the
circuit, and non-AND gates consume none.  Written to compare against
the source's `evaluate_circuit`, which indexes the stream by the gate's
overall position modulo the stream length. -/
def evaluate_circuit_and_indexed (circuit : BooleanCircuit)
    (input_shares : List SecretShareSingleBit)
    (correlated_randomness : List CorrelatedRandomnessBoolean) :
    Option (List SecretShareSingleBit) :=
  ((circuit.nodes.foldlM
    (fun state gate => do
      let all_values := state.1
      let and_idx := state.2
      let cr ← if gate.gate_type = GateType.AND then
          correlated_randomness[and_idx]?
        else
          pure { alpha := false, beta := false, gamma := false }
      let result ← evaluate_gate gate all_values cr
      pure (((pad_values all_values gate.output).set gate.output result),
        if gate.gate_type = GateType.AND then and_idx + 1 else and_idx))
    (input_shares, 0) : Option (List SecretShareSingleBit × Nat))).map
    (fun state => state.1.drop input_shares.length)

/-- The gate-position variant of the evaluator used to state the
amended claim C4: gate `i` receives the stream element at index `i`
itself, with no modulo wrap-around. -/
def evaluate_circuit_by_position (circuit : BooleanCircuit)
    (input_shares : List SecretShareSingleBit)
    (correlated_randomness : List CorrelatedRandomnessBoolean) :
    Option (List SecretShareSingleBit) :=
  (circuit.nodes.enum.foldlM
    (fun (all_values : List SecretShareSingleBit) (igate : Nat × CircuitNode) => do
      let cr ← correlated_randomness[igate.1]?
      let result ← evaluate_gate igate.2 all_values cr
      pure ((pad_values all_values igate.2.output).set igate.2.output result))
    input_shares).map (List.drop input_shares.length)

/-- `Gate` from `data_analyst/src/circuit_builder.rs`: input, constant,
AND and XOR gates, each naming its output wire. -/
inductive Gate where
  | Input (output : Nat)
  | Const (value : Bool) (output : Nat)
  | And (left right output : Nat)
  | Xor (left right output : Nat)
deriving DecidableEq, Repr

/-- `Circuit` from `circuit_builder.rs`. -/
structure Circuit where
  wire_count : Nat
  gates : List Gate
  outputs : List Nat
deriving DecidableEq, Repr

/-- `CircuitBuilder` from `circuit_builder.rs`. -/
structure CircuitBuilder where
  next_wire : Nat
  gates : List Gate
deriving DecidableEq, Repr

namespace CircuitBuilder

/-- `CircuitBuilder::new`. -/
def new : CircuitBuilder := { next_wire := 0, gates := [] }

/-- `CircuitBuilder::input`: allocate a fresh wire carrying an input. -/
def input (b : CircuitBuilder) : CircuitBuilder × Nat :=
  ({ next_wire := b.next_wire + 1, gates := b.gates ++ [Gate.Input b.next_wire] },
    b.next_wire)

/-- `CircuitBuilder::zero` (`circuit_builder.rs` lines 54-59): allocate
a wire tied to constant zero. -/
def zero (b : CircuitBuilder) : CircuitBuilder × Nat :=
  ({ next_wire := b.next_wire + 1, gates := b.gates ++ [Gate.Const false b.next_wire] },
    b.next_wire)

/-- `CircuitBuilder::one` (lines 62-67): allocate a wire tied to
constant one. -/
def one (b : CircuitBuilder) : CircuitBuilder × Nat :=
  ({ next_wire := b.next_wire + 1, gates := b.gates ++ [Gate.Const true b.next_wire] },
    b.next_wire)

/-- `CircuitBuilder::and`. -/
def and (b : CircuitBuilder) (a c : Nat) : CircuitBuilder × Nat :=
  ({ next_wire := b.next_wire + 1, gates := b.gates ++ [Gate.And a c b.next_wire] },
    b.next_wire)

/-- `CircuitBuilder::xor`. -/
def xor (b : CircuitBuilder) (a c : Nat) : CircuitBuilder × Nat :=
  ({ next_wire := b.next_wire + 1, gates := b.gates ++ [Gate.Xor a c b.next_wire] },
    b.next_wire)

/-- `CircuitBuilder::finish_with_outputs`. -/
def finish_with_outputs (b : CircuitBuilder) (outputs : List Nat) : Circuit :=
  { wire_count := b.next_wire, gates := b.gates, outputs := outputs }

end CircuitBuilder

/-- Modelled from the spec: the `BinaryOperator` enum of the analyst's
`logical_plan` module is referenced by `physical_plan.rs` and `lib.rs`
but its defining file is not in the source tree; §4.6 gives the
operator set `{=, AND, +}`. -/
inductive BinaryOperator where
  | Eq
  | And
  | Plus
deriving DecidableEq, Repr

/-- Modelled from the spec: the analyst's expression IR `Expr`
(imported as `LPExpr` by `physical_plan.rs`); its defining file is not
in the source tree.  §4.6: column index, integer literal, string
literal, binary operation — matching the variants `physical_plan.rs`
and `lib.rs` pattern-match on. -/
inductive LPExpr where
  | Column (i : Nat)
  | LiteralInt (v : Int)
  | LiteralString (s : String)
  | BinaryOp (op : BinaryOperator) (left right : LPExpr)
deriving DecidableEq, Repr

/-- Modelled from the spec: `AggregateFunc` of the missing
`logical_plan` module; §4.6 gives `{SUM, COUNT, AVG}`. -/
inductive AggregateFunc where
  | Avg
  | Sum
  | Count
deriving DecidableEq, Repr

/-- Modelled from the spec: the `LogicalPlan` tree of the missing
`logical_plan` module, §4.6 `Scan → Filter? → (Project | Aggregate)`,
with the field shapes `physical_plan.rs` and `lib.rs` destructure. -/
inductive LogicalPlan where
  | Scan (table_name : String) (aliasName : Option String)
  | Filter (input : LogicalPlan) (predicate : LPExpr)
  | Project (input : LogicalPlan) (exprs : List (LPExpr × Option String))
  | Aggregate (input : LogicalPlan) (group_exprs : List LPExpr)
      (aggr_exprs : List (AggregateFunc × LPExpr × Option String))
deriving DecidableEq, Repr

/-- `compile_expr` from `data_analyst/src/physical_plan.rs`
(lines 72-96).  `row[*i]` panics when the column index is out of range,
hence `Option`; the final catch-all arm (`_ => b.zero()`) covers the
string-literal variant. -/
def compile_expr (b : CircuitBuilder) (row : List Nat) (expr : LPExpr) :
    Option (CircuitBuilder × Nat) :=
  match expr with
  | LPExpr.Column i => (row[i]?).map (fun w => (b, w))
  | LPExpr.LiteralInt v => if v = 0 then some b.zero else some b.one
  | LPExpr.BinaryOp op left right => do
      let (b, l) ← compile_expr b row left
      let (b, r) ← compile_expr b row right
      match op with
      | BinaryOperator.And => pure (b.and l r)
      | BinaryOperator.Plus => pure (b.xor l r)
      | BinaryOperator.Eq =>
          let (b, x) := b.xor l r
          let (b, o) := b.one
          pure (b.xor x o)
  | LPExpr.LiteralString _ => some b.zero

/-- The inner `lower` function of `compile_to_circuit`
(`physical_plan.rs` lines 21-70), recursing over the logical plan with
the allocated input-wire table.  Vector indexing (`child[..]`,
`aggr_exprs[0]`, `bits[0]`) panics on out-of-range access, hence
`Option`. -/
def lower (b : CircuitBuilder) (plan : LogicalPlan) (table : List (List Nat)) :
    Option (CircuitBuilder × List Nat) :=
  match plan with
  | LogicalPlan.Scan _ _ => some (b, table.flatten)
  | LogicalPlan.Filter input predicate => do
      let (b, child) ← lower b input table
      table.enum.foldlM
        (fun (state : CircuitBuilder × List Nat) rrow => do
          let (b, out) := state
          let (b, mask) ← compile_expr b rrow.2 predicate
          (List.range rrow.2.length).foldlM
            (fun (state : CircuitBuilder × List Nat) c => do
              let (b, out) := state
              let w ← child[rrow.1 * rrow.2.length + c]?
              let (b, o) := b.and mask w
              pure (b, out ++ [o]))
            (b, out))
        (b, ([] : List Nat))
  | LogicalPlan.Project _ exprs =>
      table.foldlM
        (fun (state : CircuitBuilder × List Nat) row =>
          exprs.foldlM
            (fun (state : CircuitBuilder × List Nat) expr => do
              let (b, out) := state
              let (b, w) ← compile_expr b row expr.1
              pure (b, out ++ [w]))
            state)
        (b, ([] : List Nat))
  | LogicalPlan.Aggregate _ _ aggr_exprs => do
      let (b, bits) ← table.foldlM
        (fun (state : CircuitBuilder × List Nat) row => do
          let (b, bits) := state
          let a0 ← aggr_exprs[0]?
          let (b, w) ← compile_expr b row a0.2.1
          pure (b, bits ++ [w]))
        (b, ([] : List Nat))
      let acc0 ← bits[0]?
      let (b, acc) := (bits.drop 1).foldl
        (fun (state : CircuitBuilder × Nat) w => state.1.xor state.2 w)
        (b, acc0)
      pure (b, [acc])

/-- `compile_to_circuit` from `physical_plan.rs` (lines 5-100):
allocate `num_rows × num_columns` input wires row-major, lower the
plan, and finish the circuit with the lowered wires as outputs. -/
def compile_to_circuit (plan : LogicalPlan) (num_rows num_columns : Nat) :
    Option Circuit :=
  let init : CircuitBuilder × List (List Nat) := (CircuitBuilder.new, [])
  let alloc := (List.range num_rows).foldl
    (fun (state : CircuitBuilder × List (List Nat)) _r =>
      let rowalloc := (List.range num_columns).foldl
        (fun (state : CircuitBuilder × List Nat) _c =>
          let (b, w) := state.1.input
          (b, state.2 ++ [w]))
        (state.1, [])
      (rowalloc.1, state.2 ++ [rowalloc.2]))
    init
  (lower alloc.1 plan alloc.2).map
    (fun state => state.1.finish_with_outputs state.2)

/-- Modelled from the spec: the data owner's `BitVector` type is used
by `encode.rs` but its defining module is not in the source tree; §3
describes a bit block as an ordered sequence of bits (`new` makes an
empty one, `push` appends a bit). -/
abbrev BitVector := List Bool

/-- `Charset` as consumed by `data_owner/src/encode.rs` (its `match`
covers exactly ASCII at 7 bits per char and simplified UTF-8 at 8 bits
per char). -/
inductive Charset where
  | Ascii
  | Utf8
deriving DecidableEq, Repr

/-- `ColumnType` as consumed by `encode.rs`: Boolean, 32-bit unsigned
integer, 64-bit float, and fixed-width string. -/
inductive ColumnType where
  | Boolean
  | UnsignedInt
  | Float
  | String (max_chars : Nat) (charset : Charset)
deriving DecidableEq, Repr

/-- `ColumnDescriptor` from `data_owner/src/types.rs`. -/
structure ColumnDescriptor where
  name : String
  type_hint : ColumnType
deriving DecidableEq, Repr

/-- `encode_bool` from `encode.rs` (lines 59-65): trims, lowercases and
matches the four accepted spellings; the source's `panic!`-on-anything
else arm is `none` here. -/
def encode_bool (value : String) : Option Bool :=
  match value.trim.toLower with
  | "true" => some true
  | "1" => some true
  | "false" => some false
  | "0" => some false
  | _ => none

/-- The strict `value.parse::<u32>()` of `encode_unsigned`: an optional
leading `+`, then decimal digits, rejecting values at or above `2^32`. -/
def parse_u32 (value : String) : Option Nat :=
  let s := if value.startsWith "+" then value.drop 1 else value
  (s.toNat?).bind (fun n => if n < 2 ^ 32 then some n else none)

/-- `encode_unsigned` from `encode.rs` (lines 91-99): parse as `u32`
(the `expect` panic is `none`), then push the 32 bits LSB-first. -/
def encode_unsigned (value : String) : Option BitVector :=
  (parse_u32 value).map (fun n => (List.range 32).map (fun i => (n >>> i) % 2 == 1))

/-- `encode_float` from `encode.rs` (lines 125-134), parameterised over
`parse_f64_bits`, the composition of `value.parse::<f64>()` with
`f.to_bits()` (IEEE-754 bit extraction of a parsed float is kept
abstract; every claim settled here holds for an arbitrary parser): push
the 64 bits of the pattern LSB-first. -/
def encode_float (parse_f64_bits : String → Option Nat) (value : String) :
    Option BitVector :=
  (parse_f64_bits value).map (fun bits => (List.range 64).map (fun i => (bits >>> i) % 2 == 1))

/-- `encode_string` from `encode.rs` (lines 160-189): for each of the
`max_chars` positions take the character there (or NUL past the end of
the string), mask its codepoint to 7 bits (ASCII) or 8 bits (UTF-8),
and push those bits LSB-first.  Total: never fails. -/
def encode_string (value : String) (max_chars : Nat) (charset : Charset) : BitVector :=
  let chars := value.toList
  (List.range max_chars).foldl
    (fun bv i =>
      let c := (chars[i]?).getD (Char.ofNat 0)
      match charset with
      | Charset.Ascii =>
          bv ++ (List.range 7).map (fun j => ((c.toNat &&& 0x7F) >>> j) % 2 == 1)
      | Charset.Utf8 =>
          bv ++ (List.range 8).map (fun j => ((c.toNat &&& 0xFF) >>> j) % 2 == 1))
    []

/-- `encode_value` from `encode.rs` (lines 30-41): dispatch on the
column's type hint. -/
def encode_value (parse_f64_bits : String → Option Nat) (value : String)
    (column : ColumnDescriptor) : Option BitVector :=
  match column.type_hint with
  | ColumnType.Boolean => (encode_bool value).map (fun b => [b])
  | ColumnType.UnsignedInt => encode_unsigned value
  | ColumnType.Float => encode_float parse_f64_bits value
  | ColumnType.String max_chars charset => some (encode_string value max_chars charset)

/-- Bits per character `encode_string` emits for each charset. -/
def charsetBits : Charset → Nat
  | Charset.Ascii => 7
  | Charset.Utf8 => 8

/-- The bit block `encode_string` emits for one character: the masked
codepoint, LSB-first. -/
def charBits (charset : Charset) (c : Char) : List Bool :=
  match charset with
  | Charset.Ascii => (List.range 7).map (fun j => ((c.toNat &&& 0x7F) >>> j) % 2 == 1)
  | Charset.Utf8 => (List.range 8).map (fun j => ((c.toNat &&& 0xFF) >>> j) % 2 == 1)

/-! ## Theorems -/

/-- Two `Option`-valued folds agree when their step functions agree on
every element of the list. -/
theorem foldlM_option_congr {α β : Type} (l : List β) (f g : α → β → Option α)
    (init : α) (h : ∀ b ∈ l, ∀ a, f a b = g a b) :
    l.foldlM f init = l.foldlM g init := by
  induction l generalizing init with
  | nil => rfl
  | cons x xs ih =>
      simp only [List.foldlM_cons]
      rw [h x (by simp)]
      cases hg : g init x with
      | none => rfl
      | some a =>
          simp only [Option.bind_eq_bind, Option.some_bind]
          exact ih a (fun b hb a => h b (List.mem_cons_of_mem x hb) a)

/-- C10: for every secret bit `v` and all randomness `x1 x2`, the three
`x` components of the `CompleteShares` produced by `generate_shares`
XOR to zero, so `verify_shares` returns `true` on every generated
sharing regardless of the secret's value. -/
theorem verify_shares_generate_shares :
    ∀ v x1 x2 : Bool, verify_shares (generate_shares v x1 x2) = true := by
  decide

/-- C3: every correlated triple produced by either generator variant
satisfies `α ⊕ β ⊕ γ = 0`: for all random bits in the
information-theoretic variant, and for every PRF, key triple and
identifier in the computational variant. -/
theorem correlated_triples_xor_zero :
    (∀ p1 p2 p3 : Bool,
      Bool.xor
        (Bool.xor (generate_information_theoretic_correlated_randomness p1 p2 p3).alpha
          (generate_information_theoretic_correlated_randomness p1 p2 p3).beta)
        (generate_information_theoretic_correlated_randomness p1 p2 p3).gamma = false) ∧
    (∀ (K : Type) (F : K → String → Bool) (keys : ComputationalCorrelatedRandomness K)
      (id : String),
      Bool.xor
        (Bool.xor (get_next_correlated_bit F keys id).alpha
          (get_next_correlated_bit F keys id).beta)
        (get_next_correlated_bit F keys id).gamma = false) := by
  constructor
  · decide
  · intro K F keys id
    cases h1 : F keys.k1 id <;> cases h2 : F keys.k2 id <;> cases h3 : F keys.k3 id <;>
      simp [get_next_correlated_bit, h1, h2, h3]

/-- C2: evaluating the code at the failing input `secret = true`,
random bits `x1 = x2 = false`: `reconstruct_shares` applied to P1's and
P2's generated shares does not return the secret.  (The source's own
doc comment on lines 43-46 and the repository test
`test_boolean_sharing` expect the secret back; algebraically the
function returns `(x1⊕a1)⊕(x2⊕a2) = x2⊕x3`, a random mask independent
of the secret.) -/
theorem reconstruct_shares_not_secret :
    reconstruct_shares (generate_shares true false false).p1_share
      (generate_shares true false false).p2_share ≠ true := by
  decide

/-- C1: evaluating the code at the failing input: `x = y = true`, both
shared by `generate_shares true false false` (a valid sharing), with
the valid correlated triple `(α, β, γ) = (1, 0, 1)`.  Running
`and_gate_single_bit` at each party on its own share pair yields three
output pairs that are NOT a sharing of `x ∧ y = 1` — the source
computes all three `r` values from the single caller's shares, so every
party returns the same pair `(α⊕γ, x₁y₁⊕a₁b₁⊕α)`. -/
theorem and_gate_single_bit_not_sharing :
    IsSharingOf true (generate_shares true false false) ∧
    Bool.xor (Bool.xor true false) true = false ∧
    ¬ IsSharingOf (true && true)
        { p1_share := and_gate_single_bit (generate_shares true false false).p1_share
            (generate_shares true false false).p1_share
            { alpha := true, beta := false, gamma := true }
          p2_share := and_gate_single_bit (generate_shares true false false).p2_share
            (generate_shares true false false).p2_share
            { alpha := true, beta := false, gamma := true }
          p3_share := and_gate_single_bit (generate_shares true false false).p3_share
            (generate_shares true false false).p3_share
            { alpha := true, beta := false, gamma := true } } := by
  decide

/-- C7 counterexample: on the share pair `(false, false)` the NOT gate
returns `(false, true)` — it neither flips the first component (the
behaviour the claim assigns to the designated party P1) nor leaves the
pair unchanged (the behaviour the claim assigns to the other two
parties). -/
theorem not_gate_single_bit_counterexample :
    not_gate_single_bit { x := false, a := false } ≠ { x := true, a := false } ∧
    not_gate_single_bit { x := false, a := false } ≠ { x := false, a := false } := by
  decide

/-- C7 amended: the NOT gate keeps the `x` component and flips the `a`
component, at every party alike; the three flips turn any valid sharing
of `v` into a valid sharing of `¬v`, and applying NOT twice is the
identity on shares. -/
theorem not_gate_amended :
    (∀ (v : Bool) (cs : CompleteShares), IsSharingOf v cs →
      IsSharingOf (!v)
        { p1_share := not_gate_single_bit cs.p1_share
          p2_share := not_gate_single_bit cs.p2_share
          p3_share := not_gate_single_bit cs.p3_share }) ∧
    (∀ s : SecretShareSingleBit, not_gate_single_bit (not_gate_single_bit s) = s) := by
  constructor
  · intro v cs h
    obtain ⟨⟨x1, a1⟩, ⟨x2, a2⟩, ⟨x3, a3⟩⟩ := cs
    revert h v x1 a1 x2 a2 x3 a3
    decide
  · intro s
    obtain ⟨x, a⟩ := s
    simp [not_gate_single_bit]

/-- C7 witness: the amended NOT-gate theorem applied to the concrete
valid sharing of `true` generated with random bits `false, false`. -/
theorem not_gate_amended_witness :
    IsSharingOf (!true)
      { p1_share := not_gate_single_bit (generate_shares true false false).p1_share
        p2_share := not_gate_single_bit (generate_shares true false false).p2_share
        p3_share := not_gate_single_bit (generate_shares true false false).p3_share } :=
  not_gate_amended.1 true (generate_shares true false false) (by decide)

/-- C6 counterexample: the integer literal `5` compiles to a `CONST1`
wire (`Gate.Const true`), not to the `CONST0` wire the claim
prescribes. -/
theorem compile_expr_literal_counterexample :
    compile_expr CircuitBuilder.new [] (LPExpr.LiteralInt 5) =
      some ({ next_wire := 1, gates := [Gate.Const true 0] }, 0) ∧
    Gate.Const true 0 ≠ Gate.Const false 0 := by
  decide

/-- C6 amended: the literal `0` compiles to the builder's `zero`
(CONST0) wire and every nonzero literal — `1` included — compiles to
the builder's `one` (CONST1) wire; `zero` and `one` append a
`Gate.Const false` / `Gate.Const true` gate on a fresh wire. -/
theorem compile_expr_literal_amended :
    ∀ (b : CircuitBuilder) (row : List Nat) (v : Int),
      compile_expr b row (LPExpr.LiteralInt v) =
        some (if v = 0 then b.zero else b.one) ∧
      (b.zero).1.gates = b.gates ++ [Gate.Const false b.next_wire] ∧
      (b.one).1.gates = b.gates ++ [Gate.Const true b.next_wire] ∧
      (b.zero).2 = b.next_wire ∧ (b.one).2 = b.next_wire := by
  intro b row v
  refine ⟨?_, rfl, rfl, rfl, rfl⟩
  by_cases h : v = 0 <;> simp [compile_expr, h]

/-- C5 counterexample: on the source's own example circuit
`(A XOR B) AND C` (one declared output, one intermediate wire), the
evaluator returns TWO shares — the intermediate wire's share followed
by the output wire's — not the one declared output. -/
theorem evaluate_circuit_outputs_counterexample :
    evaluate_circuit create_example_circuit
        [{ x := false, a := false }, { x := false, a := false }, { x := false, a := false }]
        [{ alpha := false, beta := false, gamma := false }] =
      some [{ x := false, a := false }, { x := false, a := false }] ∧
    create_example_circuit.output_count = 1 ∧
    ([{ x := false, a := false }, { x := false, a := false }] :
      List SecretShareSingleBit).length ≠ create_example_circuit.output_count := by
  decide

/-- C8 counterexample: an Aggregate-only plan over a zero-row table
does not compile at all — the XOR fold of the Aggregate branch indexes
the empty bit vector (`bits[0]`, a panic in the source) — so it neither
is defined nor yields CONST0 output wires. -/
theorem compile_to_circuit_aggregate_zero_rows_counterexample :
    compile_to_circuit
        (LogicalPlan.Aggregate (LogicalPlan.Scan "t" none) []
          [(AggregateFunc.Sum, LPExpr.Column 0, none)]) 0 1 = none := by
  rfl

/-- C8 amended: with `num_rows = 0` the compiler allocates zero input
wires, and Scan, Filter and Project plans compile to the empty circuit
(no gates, no outputs); an Aggregate plan over a zero-row table does
not compile, whatever its input subplan and aggregate list. -/
theorem compile_to_circuit_zero_rows_amended :
    ∀ (ncols : Nat) (t : String) (al : Option String) (pred : LPExpr)
      (exprs : List (LPExpr × Option String)) (p : LogicalPlan)
      (gs : List LPExpr) (aggs : List (AggregateFunc × LPExpr × Option String)),
      compile_to_circuit (LogicalPlan.Scan t al) 0 ncols =
        some { wire_count := 0, gates := [], outputs := [] } ∧
      compile_to_circuit (LogicalPlan.Filter (LogicalPlan.Scan t al) pred) 0 ncols =
        some { wire_count := 0, gates := [], outputs := [] } ∧
      compile_to_circuit (LogicalPlan.Project (LogicalPlan.Scan t al) exprs) 0 ncols =
        some { wire_count := 0, gates := [], outputs := [] } ∧
      compile_to_circuit (LogicalPlan.Aggregate p gs aggs) 0 ncols = none := by
  intro ncols t al pred exprs p gs aggs
  exact ⟨rfl, rfl, rfl, rfl⟩

/-- C4 counterexample: a two-gate circuit `XOR` then `AND`, with a
stream of two distinct triples — long enough for every gate.  The AND
gate is the first (position-0) AND gate of the circuit, yet the
evaluator hands it the triple at stream index 1 (its overall gate
position), so the evaluation differs from the AND-position-indexed
consumption the claim describes. -/
theorem evaluate_circuit_triple_selection_counterexample :
    evaluate_circuit
        { input_count := 2, output_count := 1
          nodes :=
            [ { gate_type := GateType.XOR, input1 := some 0, input2 := some 1,
                output := 2, gate_id := "g0" }
            , { gate_type := GateType.AND, input1 := some 0, input2 := some 2,
                output := 3, gate_id := "g1" } ]
          topological_order := [0, 1] }
        [{ x := false, a := false }, { x := false, a := false }]
        [{ alpha := false, beta := false, gamma := false },
          { alpha := true, beta := false, gamma := true }] ≠
      evaluate_circuit_and_indexed
        { input_count := 2, output_count := 1
          nodes :=
            [ { gate_type := GateType.XOR, input1 := some 0, input2 := some 1,
                output := 2, gate_id := "g0" }
            , { gate_type := GateType.AND, input1 := some 0, input2 := some 2,
                output := 3, gate_id := "g1" } ]
          topological_order := [0, 1] }
        [{ x := false, a := false }, { x := false, a := false }]
        [{ alpha := false, beta := false, gamma := false },
          { alpha := true, beta := false, gamma := true }] := by
  decide

/-- C4 amended: the evaluator hands gate `i` — whatever its kind — the
triple at stream index `i mod stream length`; when the stream holds at
least as many triples as there are gates, gate `i` receives exactly the
`i`-th triple, so distinct gates consume distinct stream positions and
the whole evaluation coincides with position-indexed consumption. -/
theorem evaluate_circuit_triple_by_position :
    ∀ (circuit : BooleanCircuit) (input_shares : List SecretShareSingleBit)
      (crs : List CorrelatedRandomnessBoolean),
      circuit.nodes.length ≤ crs.length →
      (∀ i, i < circuit.nodes.length → crFor crs i = crs[i]?) ∧
      evaluate_circuit circuit input_shares crs =
        evaluate_circuit_by_position circuit input_shares crs := by
  intro c ins crs hlen
  have hcr : ∀ i, i < c.nodes.length → crFor crs i = crs[i]? := by
    intro i hi
    have hi' : i < crs.length := lt_of_lt_of_le hi hlen
    unfold crFor
    rw [if_neg (by omega), Nat.mod_eq_of_lt hi']
  refine ⟨hcr, ?_⟩
  unfold evaluate_circuit evaluate_circuit_by_position evaluate_circuit_wires
  congr 1
  apply foldlM_option_congr
  intro p hp a
  have hlt : p.1 < c.nodes.length := List.fst_lt_of_mem_enum hp
  rw [hcr p.1 hlt]

/-- C4 witness: the amended triple-selection theorem applied to the
concrete two-gate circuit with a two-triple stream. -/
theorem evaluate_circuit_triple_by_position_witness :
    (∀ i, i <
        ({ input_count := 2, output_count := 1
           nodes :=
             [ { gate_type := GateType.XOR, input1 := some 0, input2 := some 1,
                 output := 2, gate_id := "g0" }
             , { gate_type := GateType.AND, input1 := some 0, input2 := some 2,
                 output := 3, gate_id := "g1" } ]
           topological_order := [0, 1] } : BooleanCircuit).nodes.length →
      crFor [({ alpha := false, beta := false, gamma := false } :
          CorrelatedRandomnessBoolean),
          { alpha := true, beta := false, gamma := true }] i =
        [({ alpha := false, beta := false, gamma := false } :
          CorrelatedRandomnessBoolean),
          { alpha := true, beta := false, gamma := true }][i]?) ∧
    evaluate_circuit
        { input_count := 2, output_count := 1
          nodes :=
            [ { gate_type := GateType.XOR, input1 := some 0, input2 := some 1,
                output := 2, gate_id := "g0" }
            , { gate_type := GateType.AND, input1 := some 0, input2 := some 2,
                output := 3, gate_id := "g1" } ]
          topological_order := [0, 1] }
        [{ x := false, a := false }, { x := false, a := false }]
        [{ alpha := false, beta := false, gamma := false },
          { alpha := true, beta := false, gamma := true }] =
      evaluate_circuit_by_position
        { input_count := 2, output_count := 1
          nodes :=
            [ { gate_type := GateType.XOR, input1 := some 0, input2 := some 1,
                output := 2, gate_id := "g0" }
            , { gate_type := GateType.AND, input1 := some 0, input2 := some 2,
                output := 3, gate_id := "g1" } ]
          topological_order := [0, 1] }
        [{ x := false, a := false }, { x := false, a := false }]
        [{ alpha := false, beta := false, gamma := false },
          { alpha := true, beta := false, gamma := true }] :=
  evaluate_circuit_triple_by_position _ _ _ (by decide)

/-- C5 amended: the value `evaluate_circuit` returns is the final wire
arena with the first `input_shares.length` entries sliced off — the
ordered shares of EVERY wire numbered at or past the input count,
intermediate wires included, element `i` of the result being the share
on wire `input_shares.length + i`. -/
theorem evaluate_circuit_outputs_amended :
    ∀ (circuit : BooleanCircuit) (input_shares : List SecretShareSingleBit)
      (crs : List CorrelatedRandomnessBoolean) (w : List SecretShareSingleBit),
      evaluate_circuit_wires circuit input_shares crs = some w →
      evaluate_circuit circuit input_shares crs = some (w.drop input_shares.length) ∧
      ∀ i, (w.drop input_shares.length)[i]? = w[input_shares.length + i]? := by
  intro c ins crs w h
  refine ⟨by simp [evaluate_circuit, h], ?_⟩
  intro i
  exact List.getElem?_drop w ins.length i

/-- C5 witness: the amended slicing theorem applied to the source's
example circuit, whose final arena holds five all-false shares. -/
theorem evaluate_circuit_outputs_amended_witness :
    evaluate_circuit create_example_circuit
        [{ x := false, a := false }, { x := false, a := false }, { x := false, a := false }]
        [{ alpha := false, beta := false, gamma := false }] =
      some (([{ x := false, a := false }, { x := false, a := false },
          { x := false, a := false }, { x := false, a := false },
          { x := false, a := false }] : List SecretShareSingleBit).drop 3) ∧
    ∀ i, (([{ x := false, a := false }, { x := false, a := false },
        { x := false, a := false }, { x := false, a := false },
        { x := false, a := false }] : List SecretShareSingleBit).drop 3)[i]? =
      ([{ x := false, a := false }, { x := false, a := false },
        { x := false, a := false }, { x := false, a := false },
        { x := false, a := false }] : List SecretShareSingleBit)[3 + i]? :=
  evaluate_circuit_outputs_amended create_example_circuit _ _ _ (by decide)

/-- Folding append over a list is the flatten of the pointwise blocks. -/
theorem foldl_append_eq_flatten (f : Nat → List Bool) (l : List Nat) (init : List Bool) :
    l.foldl (fun bv i => bv ++ f i) init = init ++ (l.map f).flatten := by
  induction l generalizing init with
  | nil => simp
  | cons x xs ih => simp [List.foldl_cons, ih]

/-- `encode_string` is the concatenation of the per-position character
blocks. -/
theorem encode_string_eq_flatten (v : String) (mc : Nat) (cs : Charset) :
    encode_string v mc cs =
      ((List.range mc).map
        (fun i => charBits cs ((v.toList[i]?).getD (Char.ofNat 0)))).flatten := by
  cases cs <;>
    simpa [encode_string, charBits] using
      foldl_append_eq_flatten _ (List.range mc) []

/-- Each character block has exactly `charsetBits` bits. -/
theorem charBits_length (cs : Charset) (c : Char) :
    (charBits cs c).length = charsetBits cs := by
  cases cs <;> simp [charBits, charsetBits]

/-- The NUL padding character encodes to an all-false block. -/
theorem charBits_nul (cs : Charset) :
    charBits cs (Char.ofNat 0) = List.replicate (charsetBits cs) false := by
  cases cs <;> decide

/-- A flatten whose blocks all have length `k` has length
`blocks * k`. -/
theorem flatten_map_length {β : Type} (l : List β) (f : β → List Bool) (k : Nat)
    (h : ∀ b, (f b).length = k) : ((l.map f).flatten).length = l.length * k := by
  induction l with
  | nil => simp
  | cons x xs ih =>
      rw [List.map_cons, List.flatten_cons, List.length_append, h x, ih,
        List.length_cons, Nat.succ_mul, Nat.add_comm]

/-- Flattening `n` copies of a `k`-fold replicate. -/
theorem flatten_replicate_replicate (n k : Nat) :
    (List.replicate n (List.replicate k false)).flatten = List.replicate (n * k) false := by
  induction n with
  | zero => simp
  | succ m ih =>
      rw [List.replicate_succ, List.flatten_cons, ih, Nat.succ_mul,
        Nat.add_comm (m * k) k, List.replicate_add]

/-- `encode_string` always emits exactly `max_chars` fixed-width
character blocks. -/
theorem encode_string_length (v : String) (mc : Nat) (cs : Charset) :
    (encode_string v mc cs).length = mc * charsetBits cs := by
  rw [encode_string_eq_flatten,
    flatten_map_length _ _ (charsetBits cs) (fun i => charBits_length cs _),
    List.length_range]

/-- `encode_string` reads only the first `max_chars` characters:
longer values are truncated. -/
theorem encode_string_take (v : String) (mc : Nat) (cs : Charset) :
    encode_string v mc cs = encode_string (String.mk (v.toList.take mc)) mc cs := by
  rw [encode_string_eq_flatten, encode_string_eq_flatten]
  congr 1
  apply List.map_congr_left
  intro i hi
  rw [show (String.mk (v.toList.take mc)).toList = v.toList.take mc from rfl,
    List.getElem?_take, if_pos (List.mem_range.mp hi)]

/-- Positions past the end of the character list flatten to all-false
padding. -/
theorem flatten_pad_helper (chars : List Char) (cs : Charset) (mc : Nat)
    (h : chars.length ≤ mc) :
    ((List.range mc).map (fun i => charBits cs ((chars[i]?).getD (Char.ofNat 0)))).flatten =
      ((List.range chars.length).map
        (fun i => charBits cs ((chars[i]?).getD (Char.ofNat 0)))).flatten ++
        List.replicate ((mc - chars.length) * charsetBits cs) false := by
  obtain ⟨d, rfl⟩ : ∃ d, mc = chars.length + d := ⟨mc - chars.length, by omega⟩
  rw [List.range_add, List.map_append, List.flatten_append, Nat.add_sub_cancel_left]
  congr 1
  rw [List.map_map]
  simp only [Function.comp_def]
  have hconst : ∀ j ∈ List.range d,
      charBits cs ((chars[chars.length + j]?).getD (Char.ofNat 0)) =
        List.replicate (charsetBits cs) false := by
    intro j _
    rw [List.getElem?_eq_none (by omega), Option.getD_none, charBits_nul]
  rw [List.map_congr_left hconst, List.map_const', List.length_range,
    flatten_replicate_replicate]

/-- A value shorter than `max_chars` is zero-padded up to the full
width. -/
theorem encode_string_pad (v : String) (mc : Nat) (cs : Charset)
    (h : v.toList.length ≤ mc) :
    encode_string v mc cs =
      encode_string v v.toList.length cs ++
        List.replicate ((mc - v.toList.length) * charsetBits cs) false := by
  rw [encode_string_eq_flatten, encode_string_eq_flatten]
  exact flatten_pad_helper v.toList cs mc h

/-- C9: `encode_value` fails exactly when a Boolean, UnsignedInt or
Float value fails to parse as its declared type (for every float
parser), and never fails for a String column: the encoding has the
fixed width `max_chars * bits_per_char`, reads only the first
`max_chars` characters (truncation), and zero-pads a shorter value to
the full width. -/
theorem encode_value_strict_and_string_total :
    ∀ (parse_f64_bits : String → Option Nat) (value nm : String),
      ((encode_value parse_f64_bits value
          { name := nm, type_hint := ColumnType.Boolean }).isNone ↔
        (encode_bool value).isNone) ∧
      ((encode_value parse_f64_bits value
          { name := nm, type_hint := ColumnType.UnsignedInt }).isNone ↔
        (parse_u32 value).isNone) ∧
      ((encode_value parse_f64_bits value
          { name := nm, type_hint := ColumnType.Float }).isNone ↔
        (parse_f64_bits value).isNone) ∧
      (∀ (mc : Nat) (cs : Charset),
        encode_value parse_f64_bits value
          { name := nm, type_hint := ColumnType.String mc cs } =
          some (encode_string value mc cs)) ∧
      (∀ (mc : Nat) (cs : Charset),
        (encode_string value mc cs).length = mc * charsetBits cs) ∧
      (∀ (mc : Nat) (cs : Charset),
        encode_string value mc cs =
          encode_string (String.mk (value.toList.take mc)) mc cs) ∧
      (∀ (mc : Nat) (cs : Charset), value.toList.length ≤ mc →
        encode_string value mc cs =
          encode_string value value.toList.length cs ++
            List.replicate ((mc - value.toList.length) * charsetBits cs) false) := by
  intro pf v nm
  refine ⟨?_, ?_, ?_, fun mc cs => rfl,
    fun mc cs => encode_string_length v mc cs,
    fun mc cs => encode_string_take v mc cs,
    fun mc cs h => encode_string_pad v mc cs h⟩
  · cases h : encode_bool v <;> simp [encode_value, h]
  · cases h : parse_u32 v <;> simp [encode_value, encode_unsigned, h]
  · cases h : pf v <;> simp [encode_value, encode_float, h]

/-- C9 witness: the padding clause instantiated at the two-character
ASCII value `"ab"` with `max_chars = 4`: two character blocks then
`(4 - 2) * 7 = 14` false bits. -/
theorem encode_value_strict_witness :
    encode_string "ab" 4 Charset.Ascii =
      encode_string "ab" 2 Charset.Ascii ++ List.replicate 14 false :=
  ((encode_value_strict_and_string_total (fun _ => none) "ab" "x").2.2.2.2.2.2)
    4 Charset.Ascii (by decide)

end Fesca
